import Mathlib

/-! The request context of the web framework (`context.go`).

A shallow embedding of the methods of `Context` in `src/context.go`:
`Header`, `Write`, `WriteHeader`, `writeAnything`, `Abort`, `Redirect`,
`NotModified`, `NotFound`, `NotAcceptable`, `Unauthorized`, `Forbidden`
and `ContentType`.

Modelling decisions.

* A Go `string` is a Lean `String`; `[]byte` is `List UInt8`.
* The methods mutate the response through the pointer `ctx.Response`; here
  every method takes the context and returns the context it leaves behind
  (explicit state passing).
* The response keeps a trace of the calls the context makes on it
  (`Header().Set`, `WriteHeader`, `Write`), in order. What the transport does
  with those calls is outside `context.go`.
* The package variable `encoders` and the table behind
  `mime.TypeByExtension` are parameters of the functions that use them.
-/

namespace Web

/-! ## Go values: bytes and errors -/

/-- Go `[]byte`. -/
abbrev Bytes := List UInt8

/-- The conversion `[]byte(s)`: the UTF-8 bytes of the string. -/
def bytesOf (s : String) : Bytes := s.toUTF8.data.toList

/-- An error value that reaches `context.go` from outside: from the response
sink, from a value's own `WriteTo` or `Read`, from `io.Copy`, or from an
encoder. `EOF`, `ErrShortWrite` and `errInvalidWrite` are the package variables
of `io` that `io.Copy` compares against and returns. -/
inductive ExtError
  | EOF
  | ErrShortWrite
  | errInvalidWrite
  | other (msg : String)
  deriving DecidableEq, Repr

/-- A Go `error` as `writeAnything` returns it: either an error propagated
unchanged from a collaborator, or the value that `errors.New` allocates inside
`writeAnything`. `errors.New` returns a fresh pointer on every call, so no
collaborator can return that same value: the two cases are disjoint. -/
inductive GoError
  | propagated (e : ExtError)
  | errorsNew (text : String)
  deriving DecidableEq, Repr

/-- The message of an error (its `Error()` method). -/
def GoError.Error : GoError → String
  | .propagated .EOF => "EOF"
  | .propagated .ErrShortWrite => "short write"
  | .propagated .errInvalidWrite => "invalid write result"
  | .propagated (.other m) => m
  | .errorsNew text => text

/-! ## `http.Header` -/

/-- The function `validHeaderFieldByte` of `net/textproto`, on the code of the byte: the
token characters of RFC 7230 (digits, letters and the fifteen marks). -/
def validHeaderFieldByte (c : Nat) : Bool :=
  decide ((48 ≤ c ∧ c ≤ 57) ∨ (65 ≤ c ∧ c ≤ 90) ∨ (97 ≤ c ∧ c ≤ 122)
    ∨ c ∈ [33, 35, 36, 37, 38, 39, 42, 43, 45, 46, 94, 95, 96, 124, 126])

/-- The loop of `canonicalMIMEHeaderKey`: upper-case the first letter and every
letter after a dash (code 45), lower-case every other letter. The flag is the
loop variable `upper`; 32 is the constant `toLower`. -/
def canonicalLoop : Bool → List Nat → List Nat
  | _, [] => []
  | upper, c :: rest =>
    let c1 :=
      if upper = true ∧ 97 ≤ c ∧ c ≤ 122 then c - 32
      else if upper = false ∧ 65 ≤ c ∧ c ≤ 90 then c + 32
      else c
    c1 :: canonicalLoop (c1 == 45) rest

/-- The function `textproto.CanonicalMIMEHeaderKey`: a key holding a space or any byte that
is not a header token byte is returned unchanged, every other key is put in
canonical capitalisation. -/
def CanonicalMIMEHeaderKey (s : String) : String :=
  let a := s.toList.map Char.toNat
  if a.all validHeaderFieldByte then String.mk ((canonicalLoop true a).map Char.ofNat) else s

/-- Go `http.Header`, a `map[string][]string`, as its lookup function: a key
that is absent reads as the nil slice, as indexing a Go map does. -/
def Header : Type := String → List String

/-- The method `Header.Get`: the first value stored under the canonical form of the key,
or the empty string. -/
def Header.Get (h : Header) (key : String) : String :=
  match h (CanonicalMIMEHeaderKey key) with
  | [] => ""
  | v :: _ => v

/-- The method `Header.Set`: replace whatever is stored under the canonical form of the
key by the single value. -/
def Header.Set (h : Header) (key value : String) : Header :=
  fun k => if k = CanonicalMIMEHeaderKey key then [value] else h k

/-! ## The response sink -/

/-- A call the context makes on its response. -/
inductive Call
  | HeaderSet (key value : String)
  | WriteHeader (status : Int)
  | Write (data : Bytes)
  deriving DecidableEq, Repr

/-- Modelled from the spec: the type `ResponseWriter` behind `ctx.Response` is
declared outside `context.go`. Following section 6 of the specification it is a
sink that "provides header mutation, a one-shot status-set, and an append-only
byte-write with an error channel for transport failures": it carries the
header collection, the trace of the calls received so far, and the answer
`onWrite` that its `Write` gives to a payload after a given trace (the count
of bytes accepted and the transport error, if any). -/
structure ResponseWriter where
  header : Header
  calls : List Call
  onWrite : List Call → Bytes → Int × Option ExtError

/-- Modelled from the spec: `ResponseWriter.Write`, the append-only byte-write.
The call is recorded and the sink answers with its count and error. -/
def ResponseWriter.Write (w : ResponseWriter) (data : Bytes) :
    (Int × Option ExtError) × ResponseWriter :=
  (w.onWrite w.calls data, { w with calls := w.calls ++ [Call.Write data] })

/-- Modelled from the spec: `ResponseWriter.WriteHeader`, the status-set. The
call is recorded. -/
def ResponseWriter.WriteHeader (w : ResponseWriter) (status : Int) : ResponseWriter :=
  { w with calls := w.calls ++ [Call.WriteHeader status] }

/-- The statuses set on the response so far, oldest first. -/
def ResponseWriter.statuses (w : ResponseWriter) : List Int :=
  w.calls.filterMap fun c => match c with
    | Call.WriteHeader s => some s
    | _ => none

/-- The payloads written to the response so far, oldest first. -/
def ResponseWriter.writes (w : ResponseWriter) : List Bytes :=
  w.calls.filterMap fun c => match c with
    | Call.Write d => some d
    | _ => none

/-- The body of the response: all bytes handed to `Write`, in order. -/
def ResponseWriter.body (w : ResponseWriter) : Bytes := w.writes.flatten

/-! ## The context -/

/-- The struct `Context`. Of its fields the methods of `context.go` read and
write only `Response`; `Request`, `RawBody`, `Params`, `Server`, `User`,
`WebsockConn` and `oneaccesslogger` are never touched and are left out. -/
structure Context where
  Response : ResponseWriter

/-- The method `func (ctx *Context) Header() http.Header`. -/
def Context.Header (ctx : Context) : Header := ctx.Response.header

/-- The statement `ctx.Header().Set(key, value)`: the header map of the
response is updated in place and the call is recorded in the trace. -/
def Context.HeaderSet (ctx : Context) (key value : String) : Context :=
  { ctx with Response :=
      { ctx.Response with
        header := ctx.Response.header.Set key value
        calls := ctx.Response.calls ++ [Call.HeaderSet key value] } }

/-- The method `func (ctx *Context) Write(data []byte) (int, error)`. -/
def Context.Write (ctx : Context) (data : Bytes) : (Int × Option ExtError) × Context :=
  let r := ctx.Response.Write data
  (r.1, { ctx with Response := r.2 })

/-- The method `func (ctx *Context) WriteHeader(status int)`. -/
def Context.WriteHeader (ctx : Context) (status : Int) : Context :=
  { ctx with Response := ctx.Response.WriteHeader status }

/-- The method `func (ctx *Context) ContentType(ext string) string`, with the table of
`mime.TypeByExtension` as the parameter `TypeByExtension`. Returns the result
and the context left behind. `strings.ContainsRune(ext, '/')` is membership of
the character, `strings.HasPrefix(ext, ".")` is the test on the first
character. -/
def Context.ContentType (TypeByExtension : String → String) (ctx : Context) (ext : String) :
    String × Context :=
  let ctype :=
    if '/' ∈ ext.toList then ext
    else
      let ext1 := if List.isPrefixOf ".".toList ext.toList then ext else "." ++ ext
      TypeByExtension ext1
  if ctype ≠ "" then (ctype, ctx.HeaderSet "Content-Type" ctype) else (ctype, ctx)

/-- The method `func (ctx *Context) Abort(status int, body string)`. The three statements
in order; the results of `ContentType` and of `Write` are discarded, as in the
source. -/
def Context.Abort (TypeByExtension : String → String) (ctx : Context) (status : Int)
    (body : String) : Context :=
  let ctx1 := (ctx.ContentType TypeByExtension "txt").2
  let ctx2 := ctx1.WriteHeader status
  (ctx2.Write (bytesOf body)).2

/-- The method `func (ctx *Context) Redirect(status int, url_ string)`. -/
def Context.Redirect (TypeByExtension : String → String) (ctx : Context) (status : Int)
    (url_ : String) : Context :=
  let ctx1 := ctx.HeaderSet "Location" url_
  ctx1.Abort TypeByExtension status ("Redirecting to: " ++ url_)

/-- The method `func (ctx *Context) NotModified()`. -/
def Context.NotModified (ctx : Context) : Context :=
  ctx.WriteHeader 304

/-- The method `func (ctx *Context) NotFound(message string)`. -/
def Context.NotFound (TypeByExtension : String → String) (ctx : Context) (message : String) :
    Context :=
  ctx.Abort TypeByExtension 404 message

/-- The method `func (ctx *Context) NotAcceptable(message string)`. -/
def Context.NotAcceptable (TypeByExtension : String → String) (ctx : Context)
    (message : String) : Context :=
  ctx.Abort TypeByExtension 406 message

/-- The method `func (ctx *Context) Unauthorized(message string)`. -/
def Context.Unauthorized (TypeByExtension : String → String) (ctx : Context)
    (message : String) : Context :=
  ctx.Abort TypeByExtension 401 message

/-- The method `func (ctx *Context) Forbidden(message string)`. -/
def Context.Forbidden (TypeByExtension : String → String) (ctx : Context) (message : String) :
    Context :=
  ctx.Abort TypeByExtension 403 message

/-! ## Values handed to `writeAnything` -/

/-- A value behind `io.Reader`, as the script of the answers its `Read` will
give to the successive calls that `io.Copy` makes with its buffer: each answer
is the bytes placed in the buffer and the error returned with them. Once the
script is used up every further `Read` answers zero bytes and `io.EOF`. -/
structure Reader where
  script : List (Bytes × Option ExtError)

/-- The bytes a reader still holds: the chunks of its script, in order. -/
def Reader.content (r : Reader) : Bytes := (r.script.map Prod.fst).flatten

/-- The state of its own that a value carries and that a method called on it
may change: its reader, if it has one, and its contents. -/
structure ValueState where
  Read : Option Reader
  data : String

/-- A Go value of type `interface{}`, seen through the four tests of the type
switch in `writeAnything`, plus the contents an encoder gets to see.

* `str` is present when the dynamic type is `string` and holds the string;
* `bytes` is present when the dynamic type is `[]byte`;
* `WriteTo` is present when the method set has `WriteTo(io.Writer)`: what the
  method does to the context it is given and to its own receiver (given and
  handed back as a `ValueState`), and the count and error it returns;
* `Read` is present when the method set has `Read([]byte)`: the reader.

The nil interface has none of the four. Go itself rules out some combinations
(the types `string` and `[]byte` have no methods); the record does not, so a
statement about every `Value` covers every Go value. -/
structure Value where
  str : Option String
  bytes : Option Bytes
  WriteTo : Option (Context → ValueState → (Int × Option ExtError) × Context × ValueState)
  Read : Option Reader
  data : String

/-- The state of its own that the value is in. -/
def Value.state (i : Value) : ValueState := ⟨i.Read, i.data⟩

/-- The value with the state of its own replaced; its dynamic type, and with it
the outcome of the four tests, stays. -/
def Value.withState (i : Value) (st : ValueState) : Value :=
  { i with Read := st.Read, data := st.data }

/-- The interface `Encoder`: its one method `Encode(data interface{}) error`
acts on the context the encoder was bound to. -/
def Encoder : Type := Value → Context → Option ExtError × Context

/-- The package variable `encoders`, a `map[string]func(io.Writer) Encoder`
declared outside `context.go`, as its lookup function: the factory stored for
a content type, if any. A factory is given the context and hands back the
encoder bound to it. -/
def Registry : Type := String → Option (Context → Encoder × Context)

/-- The loop of `io.Copy(dst, src)` with `dst` the context: read a chunk, write
it if it is not empty, stop on a write error, on a short write, on `io.EOF`
(which is not reported) or on a read error. A count from `Write` that is
negative or above the length of the chunk is taken as zero and, when `Write`
gave no error, reported as `errInvalidWrite`. Returns the count written and the
error, the context, and the reader as the loop leaves it. -/
def copyLoop (dst : Context) (written : Int) :
    List (Bytes × Option ExtError) → (Int × Option ExtError) × Context × Reader
  | [] => ((written, none), dst, ⟨[]⟩)
  | (buf, er) :: rest =>
    if 0 < buf.length then
      let r := dst.Write buf
      let invalid : Bool := decide (r.1.1 < 0 ∨ (buf.length : Int) < r.1.1)
      let nw : Int := if invalid = true then 0 else r.1.1
      let ew : Option ExtError :=
        if invalid = true ∧ r.1.2 = none then some ExtError.errInvalidWrite else r.1.2
      let written1 := written + nw
      if ew ≠ none then ((written1, ew), r.2, ⟨rest⟩)
      else if (buf.length : Int) ≠ nw then ((written1, some ExtError.ErrShortWrite), r.2, ⟨rest⟩)
      else if er = some ExtError.EOF then ((written1, none), r.2, ⟨rest⟩)
      else if er ≠ none then ((written1, er), r.2, ⟨rest⟩)
      else copyLoop r.2 written1 rest
    else if er = some ExtError.EOF then ((written, none), dst, ⟨rest⟩)
    else if er ≠ none then ((written, er), dst, ⟨rest⟩)
    else copyLoop dst written rest

/-- The function `io.Copy(dst, src)` with `dst` the context, `src` the value
and `typed` its reader. A source that has `WriteTo` is asked to copy itself;
`*Context` has no `ReadFrom`, so otherwise the loop runs. Returns the count and
error, the context, and the value as the copy leaves it. -/
def ioCopy (dst : Context) (src : Value) (typed : Reader) :
    (Int × Option ExtError) × Context × Value :=
  match src.WriteTo with
  | some wt =>
    let r := wt dst src.state
    (r.1, r.2.1, src.withState r.2.2)
  | none =>
    let r := copyLoop dst 0 typed.script
    (r.1, r.2.1, { src with Read := some r.2.2 })

/-- The method `func (ctx *Context) writeAnything(i interface{}) error`, with
the package variable `encoders` as a parameter. Returns the error, the context
left behind, and the value as the call leaves it: `WriteTo` may change its
receiver, and the copy advances the reader. -/
def Context.writeAnything (encoders : Registry) (ctx : Context) (i : Value) :
    Option GoError × Context × Value :=
  match i.str with
  | some typed =>
    let r := ctx.Write (bytesOf typed)
    (r.1.2.map GoError.propagated, r.2, i)
  | none =>
  match i.bytes with
  | some typed =>
    let r := ctx.Write typed
    (r.1.2.map GoError.propagated, r.2, i)
  | none =>
  match i.WriteTo with
  | some typed =>
    let r := typed ctx i.state
    (r.1.2.map GoError.propagated, r.2.1, i.withState r.2.2)
  | none =>
  match i.Read with
  | some typed =>
    let r := ioCopy ctx i typed
    (r.1.2.map GoError.propagated, r.2.1, r.2.2)
  | none =>
    -- Can't cast to a more specific type than interface{}, try encoders
    let mime := ctx.Header.Get "content-type"
    match encoders mime with
    | some enc =>
      let e := enc ctx
      let r := e.1 i e.2
      (r.1.map GoError.propagated, r.2, i)
    | none => (some (GoError.errorsNew "cannot serialize data for writing to client"), ctx, i)

/-! ## Constructors for the common shapes of value -/

/-- A Go value of dynamic type `string`. -/
def Value.ofString (s : String) : Value := ⟨some s, none, none, none, s⟩

/-- A Go value of dynamic type `[]byte`. -/
def Value.ofBytes (b : Bytes) : Value := ⟨none, some b, none, none, ""⟩

/-- A Go value with neither method and of neither builtin type, such as a
struct; `data` stands for its contents. The nil interface is one of these. -/
def Value.plain (data : String) : Value := ⟨none, none, none, none, data⟩

/-- The context with its header collection replaced. -/
def Context.withHeader (ctx : Context) (h : Web.Header) : Context :=
  { ctx with Response := { ctx.Response with header := h } }

/-! ## Capitalisations of a header name -/

/-- ASCII lower-casing of a byte, on its code. -/
def lowerByte (c : Nat) : Nat := if 65 ≤ c ∧ c ≤ 90 then c + 32 else c

/-- The two header names differ at most in the case of their ASCII letters. -/
def sameUpToCase (a b : String) : Prop :=
  a.toList.map (fun c => lowerByte c.toNat) = b.toList.map (fun c => lowerByte c.toNat)

instance (a b : String) : Decidable (sameUpToCase a b) := by
  unfold sameUpToCase
  exact inferInstance

/-! ## Auxiliary notions used in the statements -/

/-- The extension with a leading dot ensured: the dot is put in front if and
only if the extension does not start with one. -/
def withLeadingDot (ext : String) : String :=
  if List.isPrefixOf ".".toList ext.toList then ext else "." ++ ext

/-- The context on another sink: the answers of `Write` replaced. -/
def Context.withSink (ctx : Context) (g : List Call → Bytes → Int × Option ExtError) : Context :=
  { ctx with Response := { ctx.Response with onWrite := g } }

/-- The header call that `ContentType("txt")` makes under a given table: one
`Set` of `Content-Type` when the table knows `.txt`, none otherwise. -/
def plainTextCalls (TypeByExtension : String → String) : List Call :=
  if TypeByExtension ".txt" ≠ "" then [Call.HeaderSet "Content-Type" (TypeByExtension ".txt")]
  else []

/-- A script on which the reader delivers its content and then runs dry: every
read succeeds, the last one possibly together with `io.EOF`. -/
def deliversAll : List (Bytes × Option ExtError) → Bool
  | [] => true
  | e :: rest =>
    (decide (e.2 = none) || (decide (e.2 = some ExtError.EOF) && rest.isEmpty)) && deliversAll rest

/-- The chunks of a script that hold at least one byte, in order: the reads
that `io.Copy` passes on to `Write`. -/
def nonEmptyChunks (script : List (Bytes × Option ExtError)) : List Bytes :=
  (script.map Prod.fst).filter fun b => decide (0 < b.length)

/-- The sink accepts every write in full and without error. -/
def Context.acceptsEveryWrite (ctx : Context) : Prop :=
  ∀ (tr : List Call) (d : Bytes), ctx.Response.onWrite tr d = ((d.length : Int), none)

/-- The context after further calls were recorded on its response. -/
def Context.withCalls (ctx : Context) (cs : List Call) : Context :=
  { ctx with Response := { ctx.Response with calls := ctx.Response.calls ++ cs } }

/-! ## Sample collaborators -/

/-- A header collection with no entry. -/
def emptyHeader : Header := fun _ => []

/-- A sink that accepts every write in full. -/
def acceptAll : List Call → Bytes → Int × Option ExtError := fun _ d => (d.length, none)

/-- A sink on which every write fails, as after a client disconnect. -/
def brokenPipe : List Call → Bytes → Int × Option ExtError :=
  fun _ _ => (0, some (ExtError.other "broken pipe"))

/-- A context at the start of a response, on a sink that accepts every write. -/
def freshContext : Context := ⟨⟨emptyHeader, [], acceptAll⟩⟩

/-- A context at the start of a response, on a sink whose writes fail. -/
def brokenContext : Context := ⟨⟨emptyHeader, [], brokenPipe⟩⟩

/-- An extension table knowing `.txt`, `.json` and `.html`. -/
def sampleTable : String → String := fun e =>
  if e = ".txt" then "text/plain; charset=utf-8"
  else if e = ".json" then "application/json"
  else if e = ".html" then "text/html; charset=utf-8"
  else ""

/-- A registry with no entry. -/
def noEncoders : Registry := fun _ => none

/-- An encoder that writes the contents of the value to its context and
reports the error of that write. -/
def dataEncoder : Encoder := fun v c => ((c.Write (bytesOf v.data)).1.2, (c.Write (bytesOf v.data)).2)

/-- A registry with one entry, for `application/json`. -/
def sampleEncoders : Registry := fun k =>
  if k = "application/json" then some (fun c => (dataEncoder, c)) else none

/-- The method `WriteTo` of a `*bytes.Buffer`: when the buffer holds unread
bytes they are handed to one `Write`, and the bytes accepted are dropped from
the buffer; on an error of the write, or a count short of the length, it
returns at once (with the error, or `io.ErrShortWrite`); otherwise the buffer
is left empty. A count above the length, on which the method panics, is
treated as a short count. -/
def bufferWriteTo (c : Context) (own : ValueState) :
    (Int × Option ExtError) × Context × ValueState :=
  let unread : Bytes := match own.Read with
    | some r => r.content
    | none => []
  if 0 < unread.length then
    let w := c.Write unread
    let left : ValueState := ⟨some ⟨[(unread.drop w.1.1.toNat, none)]⟩, own.data⟩
    if w.1.2 ≠ none then ((w.1.1, w.1.2), w.2, left)
    else if w.1.1 ≠ (unread.length : Int) then
      ((w.1.1, some ExtError.ErrShortWrite), w.2, left)
    else ((w.1.1, none), w.2, ⟨some ⟨[]⟩, own.data⟩)
  else ((0, none), c, ⟨some ⟨[]⟩, own.data⟩)

/-- A value with both `WriteTo` and `Read`: a `*bytes.Buffer` holding the three
unread bytes 1, 2, 3. -/
def bufferValue : Value :=
  ⟨none, none, some bufferWriteTo, some ⟨[([1, 2, 3], none)]⟩, ""⟩

/-- A value with only `Read`, delivering five bytes in three reads, one of them
empty, the last one together with `io.EOF`. -/
def streamValue : Value :=
  ⟨none, none, none, some ⟨[([1, 2], none), ([], none), ([3, 4, 5], some ExtError.EOF)]⟩, ""⟩

/-! ## Theorems -/

/-! ### Header keys -/

theorem valid_of_lowerByte_eq (x y : Nat) (h : lowerByte x = lowerByte y) :
    validHeaderFieldByte x = validHeaderFieldByte y := by
  unfold lowerByte at h
  simp only [validHeaderFieldByte, List.mem_cons, List.mem_nil_iff, or_false]
  rw [decide_eq_decide]
  split_ifs at h <;> omega

theorem canonicalLoop_of_lowerByte_eq (a b : List Nat) (h : a.map lowerByte = b.map lowerByte)
    (u : Bool) : canonicalLoop u a = canonicalLoop u b := by
  induction a generalizing b u with
  | nil =>
    cases b with
    | nil => rfl
    | cons y ys => simp at h
  | cons x xs ih =>
    cases b with
    | nil => simp at h
    | cons y ys =>
      simp only [List.map_cons, List.cons.injEq] at h
      obtain ⟨hxy, hrest⟩ := h
      have hstep : (if u = true ∧ 97 ≤ x ∧ x ≤ 122 then x - 32
            else if u = false ∧ 65 ≤ x ∧ x ≤ 90 then x + 32 else x)
          = (if u = true ∧ 97 ≤ y ∧ y ≤ 122 then y - 32
            else if u = false ∧ 65 ≤ y ∧ y ≤ 90 then y + 32 else y) := by
        unfold lowerByte at hxy
        cases u <;> simp <;> split_ifs at hxy ⊢ <;> omega
      simp only [canonicalLoop, hstep]
      rw [ih ys hrest]

theorem all_valid_of_lowerByte_eq (a b : List Nat) (h : a.map lowerByte = b.map lowerByte) :
    a.all validHeaderFieldByte = b.all validHeaderFieldByte := by
  induction a generalizing b with
  | nil =>
    cases b with
    | nil => rfl
    | cons y ys => simp at h
  | cons x xs ih =>
    cases b with
    | nil => simp at h
    | cons y ys =>
      simp only [List.map_cons, List.cons.injEq] at h
      simp only [List.all_cons, valid_of_lowerByte_eq x y h.1, ih ys h.2]

/-- Header names that differ only in case have the same canonical form. -/
theorem canonical_of_sameUpToCase (k name : String) (h : sameUpToCase k name) :
    CanonicalMIMEHeaderKey k = CanonicalMIMEHeaderKey name ∨
      (name.toList.map Char.toNat).all validHeaderFieldByte = false := by
  unfold sameUpToCase at h
  have h2 : (k.toList.map Char.toNat).map lowerByte
      = (name.toList.map Char.toNat).map lowerByte := by
    simpa [List.map_map, Function.comp] using h
  by_cases hv : (name.toList.map Char.toNat).all validHeaderFieldByte = true
  · left
    unfold CanonicalMIMEHeaderKey
    simp only [all_valid_of_lowerByte_eq _ _ h2, canonicalLoop_of_lowerByte_eq _ _ h2, hv, if_true]
  · right
    simpa using hv

theorem canonical_contentType_of_sameUpToCase (k : String) (h : sameUpToCase k "Content-Type") :
    CanonicalMIMEHeaderKey k = "Content-Type" := by
  rcases canonical_of_sameUpToCase k "Content-Type" h with h1 | h1
  · rw [h1]; decide
  · exact absurd h1 (by decide)

theorem canonical_contentType : CanonicalMIMEHeaderKey "Content-Type" = "Content-Type" := by
  decide

/-- Reading back a header just set, under any spelling with the same canonical
form. -/
theorem get_set_of_canonical_eq (h : Header) (k1 k2 value : String)
    (hk : CanonicalMIMEHeaderKey k2 = CanonicalMIMEHeaderKey k1) :
    (h.Set k1 value).Get k2 = value := by
  simp [Header.Get, Header.Set, hk]

/-- Setting one header leaves a header with another canonical name as it was. -/
theorem get_set_of_canonical_ne (h : Header) (k1 k2 value : String)
    (hk : CanonicalMIMEHeaderKey k2 ≠ CanonicalMIMEHeaderKey k1) :
    (h.Set k1 value).Get k2 = h.Get k2 := by
  simp [Header.Get, Header.Set, hk]


/-- C1: for a value of type string holding `s`, `writeAnything` makes the single
call `Write` with the bytes of `s` and nothing else (the trace grows by exactly
that call, the headers are untouched), returns exactly the error of that
`Write`, and neither the registry nor the header collection has any influence
on the trace or on the result; for a value of type `[]byte` holding `b` the
same holds with `b` itself as the payload. -/
theorem writeAnything_string_and_bytes (encoders : Registry) (ctx : Context) (i : Value) :
    (∀ s, i.str = some s →
      (ctx.writeAnything encoders i).2.1.Response.calls
          = ctx.Response.calls ++ [Call.Write (bytesOf s)]
      ∧ (ctx.writeAnything encoders i).2.1.Response.header = ctx.Response.header
      ∧ (ctx.writeAnything encoders i).2.1.Response.onWrite = ctx.Response.onWrite
      ∧ (ctx.writeAnything encoders i).1
          = (ctx.Response.onWrite ctx.Response.calls (bytesOf s)).2.map GoError.propagated
      ∧ (ctx.writeAnything encoders i).2.2 = i
      ∧ ∀ (encoders2 : Registry) (h2 : Header),
          ((ctx.withHeader h2).writeAnything encoders2 i).1 = (ctx.writeAnything encoders i).1
          ∧ ((ctx.withHeader h2).writeAnything encoders2 i).2.1.Response.calls
              = (ctx.writeAnything encoders i).2.1.Response.calls)
    ∧ (∀ b, i.str = none → i.bytes = some b →
      (ctx.writeAnything encoders i).2.1.Response.calls = ctx.Response.calls ++ [Call.Write b]
      ∧ (ctx.writeAnything encoders i).2.1.Response.header = ctx.Response.header
      ∧ (ctx.writeAnything encoders i).2.1.Response.onWrite = ctx.Response.onWrite
      ∧ (ctx.writeAnything encoders i).1
          = (ctx.Response.onWrite ctx.Response.calls b).2.map GoError.propagated
      ∧ (ctx.writeAnything encoders i).2.2 = i
      ∧ ∀ (encoders2 : Registry) (h2 : Header),
          ((ctx.withHeader h2).writeAnything encoders2 i).1 = (ctx.writeAnything encoders i).1
          ∧ ((ctx.withHeader h2).writeAnything encoders2 i).2.1.Response.calls
              = (ctx.writeAnything encoders i).2.1.Response.calls) := by
  constructor
  · intro s hs
    simp [Context.writeAnything, hs, Context.Write, ResponseWriter.Write, Context.withHeader]
  · intro b hs hb
    simp [Context.writeAnything, hs, hb, Context.Write, ResponseWriter.Write, Context.withHeader]

/-- Witness of C1 on a failing sink: the string "hi" and the bytes 7, 8 are each
handed to `Write` once, and the error of the sink comes back unchanged. -/
theorem writeAnything_string_and_bytes_witness :
    ((brokenContext.writeAnything sampleEncoders (Value.ofString "hi")).2.1.Response.calls
        = [Call.Write (bytesOf "hi")]
      ∧ (brokenContext.writeAnything sampleEncoders (Value.ofString "hi")).1
        = some (GoError.propagated (ExtError.other "broken pipe")))
    ∧ ((brokenContext.writeAnything sampleEncoders (Value.ofBytes [7, 8])).2.1.Response.calls
        = [Call.Write [7, 8]]
      ∧ (brokenContext.writeAnything sampleEncoders (Value.ofBytes [7, 8])).1
        = some (GoError.propagated (ExtError.other "broken pipe"))) :=
  have h1 := (writeAnything_string_and_bytes sampleEncoders brokenContext
    (Value.ofString "hi")).1 "hi" rfl
  have h2 := (writeAnything_string_and_bytes sampleEncoders brokenContext
    (Value.ofBytes [7, 8])).2 [7, 8] rfl rfl
  ⟨⟨h1.1, h1.2.2.2.1⟩, ⟨h2.1, h2.2.2.2.1⟩⟩

/-- C2: `writeAnything` applies exactly one strategy, the first whose test the
value passes, in the order string, byte sequence, `WriteTo`, `Read`, registry.
A string value is written with one `Write` whatever else it could do (it is
handed back as it was: its reader, if it had one, is not read). A value with
`WriteTo` (and possibly `Read`) has `WriteTo` applied once, to the context and
to the value in the state it came in; the outcome is exactly the outcome of
that one call: its error, the context it left and the value as it left it, with
no write and no read added by `writeAnything`. A value with only `Read` is
copied. Only a value passing none of the four
tests reaches the registry, and for every other value the registry has no
influence at all. -/
theorem writeAnything_first_match (encoders : Registry) (ctx : Context) (i : Value) :
    (∀ s, i.str = some s →
      ctx.writeAnything encoders i
        = ((ctx.Write (bytesOf s)).1.2.map GoError.propagated, (ctx.Write (bytesOf s)).2, i))
    ∧ (∀ b, i.str = none → i.bytes = some b →
      ctx.writeAnything encoders i
        = ((ctx.Write b).1.2.map GoError.propagated, (ctx.Write b).2, i))
    ∧ (∀ wt, i.str = none → i.bytes = none → i.WriteTo = some wt →
      ctx.writeAnything encoders i
        = ((wt ctx i.state).1.2.map GoError.propagated, (wt ctx i.state).2.1,
            i.withState (wt ctx i.state).2.2))
    ∧ (∀ r, i.str = none → i.bytes = none → i.WriteTo = none → i.Read = some r →
      ctx.writeAnything encoders i
        = ((copyLoop ctx 0 r.script).1.2.map GoError.propagated, (copyLoop ctx 0 r.script).2.1,
            { i with Read := some (copyLoop ctx 0 r.script).2.2 }))
    ∧ (i.str = none → i.bytes = none → i.WriteTo = none → i.Read = none →
      ctx.writeAnything encoders i
        = match encoders (ctx.Header.Get "content-type") with
          | some enc =>
            (((enc ctx).1 i (enc ctx).2).1.map GoError.propagated, ((enc ctx).1 i (enc ctx).2).2, i)
          | none =>
            (some (GoError.errorsNew "cannot serialize data for writing to client"), ctx, i))
    ∧ ((i.str ≠ none ∨ i.bytes ≠ none ∨ i.WriteTo ≠ none ∨ i.Read ≠ none) →
      ∀ encoders2 : Registry, ctx.writeAnything encoders2 i = ctx.writeAnything encoders i) := by
  refine ⟨?_, ?_, ?_, ?_, ?_, ?_⟩
  · intro s hs
    simp [Context.writeAnything, hs]
  · intro b hs hb
    simp [Context.writeAnything, hs, hb]
  · intro wt hs hb hw
    simp [Context.writeAnything, hs, hb, hw]
  · intro r hs hb hw hr
    simp [Context.writeAnything, hs, hb, hw, hr, ioCopy]
  · intro hs hb hw hr
    simp only [Context.writeAnything, hs, hb, hw, hr]
  · intro h encoders2
    cases hs : i.str with
    | some s => simp [Context.writeAnything, hs]
    | none =>
      cases hb : i.bytes with
      | some b => simp [Context.writeAnything, hs, hb]
      | none =>
        cases hw : i.WriteTo with
        | some wt => simp [Context.writeAnything, hs, hb, hw]
        | none =>
          cases hr : i.Read with
          | some r => simp [Context.writeAnything, hs, hb, hw, hr]
          | none => simp [hs, hb, hw, hr] at h

/-- Witness of C2, with `application/json` set and registered: a buffer with
both `WriteTo` and `Read` is written by its one `WriteTo` call (a single write
of its three bytes) and comes back drained by that call, so that a second
dispatch writes nothing more; the string "hi" gets one `Write`; neither reaches
the encoder. -/
theorem writeAnything_first_match_witness :
    ((freshContext.HeaderSet "Content-Type" "application/json").writeAnything sampleEncoders
        bufferValue).2.1.Response.calls
      = [Call.HeaderSet "Content-Type" "application/json", Call.Write [1, 2, 3]]
    ∧ (((freshContext.HeaderSet "Content-Type" "application/json").writeAnything sampleEncoders
        bufferValue).2.2.Read.map Reader.script) = some []
    ∧ (((freshContext.HeaderSet "Content-Type" "application/json").writeAnything sampleEncoders
          bufferValue).2.1.writeAnything sampleEncoders
        ((freshContext.HeaderSet "Content-Type" "application/json").writeAnything sampleEncoders
          bufferValue).2.2).2.1.Response.calls
      = [Call.HeaderSet "Content-Type" "application/json", Call.Write [1, 2, 3]]
    ∧ ((freshContext.HeaderSet "Content-Type" "application/json").writeAnything sampleEncoders
        (Value.ofString "hi")).2.1.Response.calls
      = [Call.HeaderSet "Content-Type" "application/json", Call.Write (bytesOf "hi")] := by
  have h1 := (writeAnything_first_match sampleEncoders
    (freshContext.HeaderSet "Content-Type" "application/json") bufferValue).2.2.1
      bufferWriteTo rfl rfl rfl
  have h2 := (writeAnything_first_match sampleEncoders
    (freshContext.HeaderSet "Content-Type" "application/json") (Value.ofString "hi")).1 "hi" rfl
  have h3 := (writeAnything_first_match sampleEncoders
    (bufferWriteTo (freshContext.HeaderSet "Content-Type" "application/json")
      bufferValue.state).2.1
    (bufferValue.withState (bufferWriteTo
      (freshContext.HeaderSet "Content-Type" "application/json") bufferValue.state).2.2)).2.2.1
      bufferWriteTo rfl rfl rfl
  rw [h1, h3, h2]
  exact ⟨by decide, by decide, by decide, rfl⟩

/-- C3: for a value passing none of the four tests and a content type `T` with
a factory `f` in the registry: after `ContentType(T)` with a slash in `T`, and
likewise after `Header().Set(k, T)` for any capitalisation `k` of
`Content-Type`, `writeAnything` finds `f` under `T`, applies `f` once to the
context, applies the `Encode` of the encoder obtained once to the value, and
its outcome is exactly the outcome of that one `Encode`: the error it returned
and the context it left, with no call added by `writeAnything` itself. -/
theorem writeAnything_registered_encoder (encoders : Registry) (TypeByExtension : String → String)
    (ctx : Context) (v : Value) (T : String) (f : Context → Encoder × Context)
    (hs : v.str = none) (hb : v.bytes = none) (hw : v.WriteTo = none) (hr : v.Read = none)
    (hT : encoders T = some f) :
    ('/' ∈ T.toList →
      (ctx.ContentType TypeByExtension T).1 = T
      ∧ (ctx.ContentType TypeByExtension T).2.writeAnything encoders v
        = (((f (ctx.ContentType TypeByExtension T).2).1 v
              (f (ctx.ContentType TypeByExtension T).2).2).1.map GoError.propagated,
            ((f (ctx.ContentType TypeByExtension T).2).1 v
              (f (ctx.ContentType TypeByExtension T).2).2).2, v))
    ∧ (∀ k, sameUpToCase k "Content-Type" →
      (ctx.HeaderSet k T).writeAnything encoders v
        = (((f (ctx.HeaderSet k T)).1 v (f (ctx.HeaderSet k T)).2).1.map GoError.propagated,
            ((f (ctx.HeaderSet k T)).1 v (f (ctx.HeaderSet k T)).2).2, v)) := by
  constructor
  · intro hslash
    have hne : T ≠ "" := by
      intro h0
      rw [h0] at hslash
      simp at hslash
    have hct : ctx.ContentType TypeByExtension T = (T, ctx.HeaderSet "Content-Type" T) := by
      simp only [Context.ContentType, if_pos hslash, ne_eq, hne, not_false_eq_true, if_true]
    have hget : (ctx.HeaderSet "Content-Type" T).Header.Get "content-type" = T :=
      get_set_of_canonical_eq _ _ _ _ (by decide)
    rw [hct]
    refine ⟨rfl, ?_⟩
    simp only [Context.writeAnything, hs, hb, hw, hr, hget, hT]
  · intro k hk
    have hget : (ctx.HeaderSet k T).Header.Get "content-type" = T :=
      get_set_of_canonical_eq _ _ _ _
        (by rw [canonical_contentType_of_sameUpToCase k hk]; decide)
    simp only [Context.writeAnything, hs, hb, hw, hr, hget, hT]

/-- Witness of C3: with `application/json` set through `ContentType`, and with
it set under the spelling `CONTENT-type`, a plain value goes to the registered
encoder, which here writes the contents of the value once. -/
theorem writeAnything_registered_encoder_witness :
    ((freshContext.ContentType sampleTable "application/json").2.writeAnything sampleEncoders
        (Value.plain "payload")).2.1.Response.calls
      = [Call.HeaderSet "Content-Type" "application/json", Call.Write (bytesOf "payload")]
    ∧ ((freshContext.HeaderSet "CONTENT-type" "application/json").writeAnything sampleEncoders
        (Value.plain "payload")).2.1.Response.calls
      = [Call.HeaderSet "CONTENT-type" "application/json", Call.Write (bytesOf "payload")] := by
  have h := writeAnything_registered_encoder sampleEncoders sampleTable freshContext
    (Value.plain "payload") "application/json" (fun c => (dataEncoder, c)) rfl rfl rfl rfl rfl
  have h1 := (h.1 (by decide)).2
  have h2 := h.2 "CONTENT-type" (by decide)
  rw [h1, h2]
  exact ⟨by decide, by decide⟩

/-- C4: `writeAnything` returns the error made by
`errors.New("cannot serialize data for writing to client")` exactly when the
value passes none of the four tests and the registry has no entry under the
value that `Get("content-type")` reads from the response headers (the empty
string when none is set); in that case the context, with its headers and its
trace of calls, and the value are handed back as they were, so no byte is
written and no status set, and the result is an error, never nil. -/
theorem writeAnything_no_strategy (encoders : Registry) (ctx : Context) (i : Value) :
    ((ctx.writeAnything encoders i).1
        = some (GoError.errorsNew "cannot serialize data for writing to client")
      ↔ (i.str = none ∧ i.bytes = none ∧ i.WriteTo = none ∧ i.Read = none
          ∧ encoders (ctx.Header.Get "content-type") = none))
    ∧ ((i.str = none ∧ i.bytes = none ∧ i.WriteTo = none ∧ i.Read = none
          ∧ encoders (ctx.Header.Get "content-type") = none) →
        ctx.writeAnything encoders i
          = (some (GoError.errorsNew "cannot serialize data for writing to client"), ctx, i)) := by
  have hmap : ∀ o : Option ExtError, o.map GoError.propagated
      ≠ some (GoError.errorsNew "cannot serialize data for writing to client") := by
    intro o
    cases o <;> simp
  constructor
  · cases hs : i.str with
    | some s => simp [Context.writeAnything, hs]
    | none =>
      cases hb : i.bytes with
      | some b => simp [Context.writeAnything, hs, hb]
      | none =>
        cases hw : i.WriteTo with
        | some wt => simp [Context.writeAnything, hs, hb, hw]
        | none =>
          cases hr : i.Read with
          | some r => simp [Context.writeAnything, hs, hb, hw, hr]
          | none =>
            cases he : encoders (ctx.Header.Get "content-type") with
            | some enc => simp [Context.writeAnything, hs, hb, hw, hr, he]
            | none => simp [Context.writeAnything, hs, hb, hw, hr, he]
  · rintro ⟨hs, hb, hw, hr, he⟩
    simp only [Context.writeAnything, hs, hb, hw, hr, he]

/-- Witness of C4: the nil value on a response with no `Content-Type` set and a
registry without an entry for the empty string fails, leaving an empty trace; a
plain value under an unregistered content type fails as well, with the message
of the source. -/
theorem writeAnything_no_strategy_witness :
    freshContext.writeAnything sampleEncoders (Value.plain "")
      = (some (GoError.errorsNew "cannot serialize data for writing to client"), freshContext,
          Value.plain "")
    ∧ (freshContext.writeAnything sampleEncoders (Value.plain "")).2.1.Response.calls = []
    ∧ ((freshContext.HeaderSet "Content-Type" "text/csv").writeAnything sampleEncoders
        (Value.plain "a,b")).1
      = some (GoError.errorsNew "cannot serialize data for writing to client")
    ∧ (((freshContext.HeaderSet "Content-Type" "text/csv").writeAnything sampleEncoders
        (Value.plain "a,b")).1.map GoError.Error)
      = some "cannot serialize data for writing to client" := by
  have h1 := (writeAnything_no_strategy sampleEncoders freshContext (Value.plain "")).2
    ⟨rfl, rfl, rfl, rfl, rfl⟩
  have h2 := (writeAnything_no_strategy sampleEncoders
    (freshContext.HeaderSet "Content-Type" "text/csv") (Value.plain "a,b")).1.2
    ⟨rfl, rfl, rfl, rfl, rfl⟩
  refine ⟨h1, ?_, h2, ?_⟩
  · rw [h1]
    rfl
  · rw [h2]
    rfl

/-! ### Traces -/

theorem statuses_append (w : ResponseWriter) (cs : List Call) :
    ResponseWriter.statuses { w with calls := w.calls ++ cs }
      = w.statuses ++ ResponseWriter.statuses { w with calls := cs } := by
  simp [ResponseWriter.statuses, List.filterMap_append]

theorem writes_append (w : ResponseWriter) (cs : List Call) :
    ResponseWriter.writes { w with calls := w.calls ++ cs }
      = w.writes ++ ResponseWriter.writes { w with calls := cs } := by
  simp [ResponseWriter.writes, List.filterMap_append]

/-- What `ContentType("txt")` does, under any table. -/
theorem ContentType_txt (TypeByExtension : String → String) (ctx : Context) :
    ctx.ContentType TypeByExtension "txt"
      = if TypeByExtension ".txt" ≠ "" then
          (TypeByExtension ".txt", ctx.HeaderSet "Content-Type" (TypeByExtension ".txt"))
        else (TypeByExtension ".txt", ctx) := by
  have h1 : ¬ ('/' ∈ "txt".toList) := by decide
  have h2 : ¬ (List.isPrefixOf ".".toList "txt".toList = true) := by decide
  have h3 : "." ++ "txt" = ".txt" := by decide
  simp only [Context.ContentType, if_neg h1, if_neg h2, h3]

/-- The trace that `Abort` leaves, under any table. -/
theorem Abort_calls (TypeByExtension : String → String) (ctx : Context) (status : Int)
    (body : String) :
    (ctx.Abort TypeByExtension status body).Response.calls
      = ctx.Response.calls ++ plainTextCalls TypeByExtension
          ++ [Call.WriteHeader status, Call.Write (bytesOf body)] := by
  unfold Context.Abort plainTextCalls
  rw [ContentType_txt]
  by_cases h : TypeByExtension ".txt" = ""
  · simp [h, Context.Write, Context.WriteHeader, ResponseWriter.Write, ResponseWriter.WriteHeader]
  · simp [h, Context.Write, Context.WriteHeader, ResponseWriter.Write, ResponseWriter.WriteHeader,
      Context.HeaderSet]

/-- The headers that `Abort` leaves, under any table. -/
theorem Abort_header (TypeByExtension : String → String) (ctx : Context) (status : Int)
    (body : String) :
    (ctx.Abort TypeByExtension status body).Response.header
      = if TypeByExtension ".txt" ≠ "" then
          ctx.Response.header.Set "Content-Type" (TypeByExtension ".txt")
        else ctx.Response.header := by
  unfold Context.Abort
  rw [ContentType_txt]
  by_cases h : TypeByExtension ".txt" = ""
  · simp [h, Context.Write, Context.WriteHeader, ResponseWriter.Write, ResponseWriter.WriteHeader]
  · simp [h, Context.Write, Context.WriteHeader, ResponseWriter.Write, ResponseWriter.WriteHeader,
      Context.HeaderSet]

theorem toList_dot_append (ext : String) : ("." ++ ext).toList = '.' :: ext.toList := by
  simp [String.toList]

/-! ### The claims on `ContentType` -/

/-- C5: an input holding a slash is returned verbatim and `Content-Type` is set
to exactly it, replacing what was there; the extension table has no influence;
no other header changes and nothing is added to the trace but that one
`Header().Set`, so no status is set and no byte written. -/
theorem ContentType_verbatim (TypeByExtension : String → String) (ctx : Context) (ext : String)
    (h : '/' ∈ ext.toList) :
    ctx.ContentType TypeByExtension ext = (ext, ctx.HeaderSet "Content-Type" ext)
    ∧ (ctx.ContentType TypeByExtension ext).2.Response.header "Content-Type" = [ext]
    ∧ (ctx.ContentType TypeByExtension ext).2.Header.Get "Content-Type" = ext
    ∧ (∀ k, k ≠ "Content-Type" →
        (ctx.ContentType TypeByExtension ext).2.Response.header k = ctx.Response.header k)
    ∧ (ctx.ContentType TypeByExtension ext).2.Response.calls
        = ctx.Response.calls ++ [Call.HeaderSet "Content-Type" ext]
    ∧ (ctx.ContentType TypeByExtension ext).2.Response.statuses = ctx.Response.statuses
    ∧ (ctx.ContentType TypeByExtension ext).2.Response.body = ctx.Response.body
    ∧ (∀ table2 : String → String,
        ctx.ContentType table2 ext = ctx.ContentType TypeByExtension ext) := by
  have hne : ext ≠ "" := by
    intro h0
    rw [h0] at h
    simp at h
  have hct : ∀ t : String → String, ctx.ContentType t ext = (ext, ctx.HeaderSet "Content-Type" ext) := by
    intro t
    simp only [Context.ContentType, if_pos h, ne_eq, hne, not_false_eq_true, if_true]
  rw [hct]
  refine ⟨rfl, ?_, ?_, ?_, rfl, ?_, ?_, ?_⟩
  · simp [Context.HeaderSet, Header.Set, canonical_contentType]
  · exact get_set_of_canonical_eq _ _ _ _ rfl
  · intro k hk
    simp [Context.HeaderSet, Header.Set, canonical_contentType, hk]
  · simp [Context.HeaderSet, ResponseWriter.statuses, List.filterMap_append]
  · simp [Context.HeaderSet, ResponseWriter.body, ResponseWriter.writes, List.filterMap_append]
  · intro t
    rw [hct]

/-- Witness of C5: `ContentType("bogus/unknown-ext")` returns its input and sets
the header to it, whatever the table (here one that knows nothing). -/
theorem ContentType_verbatim_witness :
    (freshContext.ContentType (fun _ => "") "bogus/unknown-ext").1 = "bogus/unknown-ext"
    ∧ (freshContext.ContentType (fun _ => "") "bogus/unknown-ext").2.Header.Get "Content-Type"
        = "bogus/unknown-ext"
    ∧ (freshContext.ContentType (fun _ => "") "bogus/unknown-ext").2.Response.calls
        = [Call.HeaderSet "Content-Type" "bogus/unknown-ext"] := by
  have h := ContentType_verbatim (fun _ => "") freshContext "bogus/unknown-ext" (by decide)
  exact ⟨by rw [h.1], h.2.2.1, h.2.2.2.2.1⟩

/-- C6: for an input without a slash, `ContentType` returns what the table holds
for the input with a leading dot ensured (which starts with a dot, and is the
input itself exactly when the input already starts with one), so that a bare
extension and its dotted form give the same result and the same context. When
the result is not empty `Content-Type` is set to exactly it by one
`Header().Set`; when it is empty the empty string is returned and the context is
handed back as it was. -/
theorem ContentType_by_extension (TypeByExtension : String → String) (ctx : Context)
    (ext : String) (h : '/' ∉ ext.toList) :
    (ctx.ContentType TypeByExtension ext).1 = TypeByExtension (withLeadingDot ext)
    ∧ (withLeadingDot ext).toList.head? = some '.'
    ∧ (withLeadingDot ext = ext ↔ ext.toList.head? = some '.')
    ∧ (ext.toList.head? ≠ some '.' → withLeadingDot ext = "." ++ ext)
    ∧ (ext.toList.head? ≠ some '.' →
        ctx.ContentType TypeByExtension ("." ++ ext) = ctx.ContentType TypeByExtension ext)
    ∧ (TypeByExtension (withLeadingDot ext) ≠ "" →
        ctx.ContentType TypeByExtension ext
          = (TypeByExtension (withLeadingDot ext),
              ctx.HeaderSet "Content-Type" (TypeByExtension (withLeadingDot ext)))
        ∧ (ctx.ContentType TypeByExtension ext).2.Header.Get "Content-Type"
          = TypeByExtension (withLeadingDot ext))
    ∧ (TypeByExtension (withLeadingDot ext) = "" →
        ctx.ContentType TypeByExtension ext = ("", ctx)) := by
  have hdot : ∀ e : String, (List.isPrefixOf ".".toList e.toList = true) ↔ e.toList.head? = some '.' := by
    intro e
    cases he : e.toList with
    | nil => simp [String.toList]
    | cons c cs =>
      simp [String.toList]
      exact eq_comm
  have hct : ∀ e : String, '/' ∉ e.toList → ctx.ContentType TypeByExtension e
      = if TypeByExtension (withLeadingDot e) ≠ "" then
          (TypeByExtension (withLeadingDot e),
            ctx.HeaderSet "Content-Type" (TypeByExtension (withLeadingDot e)))
        else (TypeByExtension (withLeadingDot e), ctx) := by
    intro e he
    simp only [Context.ContentType, if_neg he, withLeadingDot]
  have hfix : ∀ e : String, e.toList.head? = some '.' → withLeadingDot e = e := by
    intro e he
    simp only [withLeadingDot, (hdot e).2 he, if_true]
  have hpre : ∀ e : String, e.toList.head? ≠ some '.' → withLeadingDot e = "." ++ e := by
    intro e he
    have : ¬ (List.isPrefixOf ".".toList e.toList = true) := fun hp => he ((hdot e).1 hp)
    simp only [withLeadingDot, if_neg this]
  refine ⟨?_, ?_, ?_, hpre ext, ?_, ?_, ?_⟩
  · rw [hct ext h]
    split_ifs <;> rfl
  · by_cases he : ext.toList.head? = some '.'
    · rw [hfix ext he]; exact he
    · rw [hpre ext he, toList_dot_append]; rfl
  · constructor
    · intro heq
      by_contra he
      have h1 := hpre ext he
      rw [heq] at h1
      have h2 := congrArg String.length h1
      simp [String.length_append] at h2
      exact absurd h2 (by decide)
    · exact hfix ext
  · intro he
    have hslash : '/' ∉ ("." ++ ext).toList := by
      rw [toList_dot_append]
      simp only [List.mem_cons, not_or]
      exact ⟨by decide, h⟩
    have hd : withLeadingDot ("." ++ ext) = "." ++ ext :=
      hfix _ (by rw [toList_dot_append]; rfl)
    rw [hct _ hslash, hct ext h, hd, hpre ext he]
  · intro hne
    rw [hct ext h, if_pos hne]
    exact ⟨rfl, get_set_of_canonical_eq _ _ _ _ rfl⟩
  · intro he
    rw [hct ext h, he]
    simp

/-- Witness of C6: under a table that knows `.json`, `ContentType("json")` and
`ContentType(".json")` both return `application/json` and set it;
`ContentType("nonexistent")` returns the empty string and leaves the context as
it was. -/
theorem ContentType_by_extension_witness :
    (freshContext.ContentType sampleTable "json").1 = "application/json"
    ∧ (freshContext.ContentType sampleTable "json").2.Header.Get "Content-Type"
        = "application/json"
    ∧ freshContext.ContentType sampleTable ".json" = freshContext.ContentType sampleTable "json"
    ∧ freshContext.ContentType sampleTable "nonexistent" = ("", freshContext) := by
  have h := ContentType_by_extension sampleTable freshContext "json" (by decide)
  have h2 := ContentType_by_extension sampleTable freshContext "nonexistent" (by decide)
  refine ⟨?_, ?_, ?_, ?_⟩
  · rw [h.1]; decide
  · rw [(h.2.2.2.2.2.1 (by decide)).2]; decide
  · exact h.2.2.2.2.1 (by decide)
  · exact h2.2.2.2.2.2.2 (by decide)

/-! ### The claims on `Abort` and the helpers built on it -/

/-- C7: under a table that resolves `.txt` to a content type `plain`, on every
context (every sink, failing or not), `Abort(status, body)` adds to the trace
exactly `Set("Content-Type", plain)`, then `WriteHeader(status)`, then a
`Write` of the bytes of `body`, in that order and each once; afterwards
`Content-Type` reads `plain`. It returns nothing but the context (there is no
error to expose), and what it leaves behind is the same on every sink,
whatever `Write` answered. -/
theorem Abort_sequence (TypeByExtension : String → String) (ctx : Context) (status : Int)
    (body plain : String) (ht : TypeByExtension ".txt" = plain) (hne : plain ≠ "") :
    ctx.Abort TypeByExtension status body
      = (((ctx.HeaderSet "Content-Type" plain).WriteHeader status).Write (bytesOf body)).2
    ∧ (ctx.Abort TypeByExtension status body).Response.calls
        = ctx.Response.calls
          ++ [Call.HeaderSet "Content-Type" plain, Call.WriteHeader status,
              Call.Write (bytesOf body)]
    ∧ (ctx.Abort TypeByExtension status body).Header.Get "Content-Type" = plain
    ∧ (ctx.Abort TypeByExtension status body).Response.statuses
        = ctx.Response.statuses ++ [status]
    ∧ (ctx.Abort TypeByExtension status body).Response.body
        = ctx.Response.body ++ bytesOf body
    ∧ (∀ g : List Call → Bytes → Int × Option ExtError,
        ((ctx.withSink g).Abort TypeByExtension status body).Response.calls
            = (ctx.Abort TypeByExtension status body).Response.calls
          ∧ ((ctx.withSink g).Abort TypeByExtension status body).Response.header
            = (ctx.Abort TypeByExtension status body).Response.header) := by
  have hne2 : TypeByExtension ".txt" ≠ "" := by rw [ht]; exact hne
  have hcalls := Abort_calls TypeByExtension ctx status body
  have hhead := Abort_header TypeByExtension ctx status body
  simp only [plainTextCalls, ht, if_pos hne, List.append_assoc, List.singleton_append] at hcalls
  simp only [ht, if_pos hne] at hhead
  refine ⟨?_, hcalls, ?_, ?_, ?_, ?_⟩
  · unfold Context.Abort
    rw [ContentType_txt, if_pos hne2, ht]
  · show Header.Get (ctx.Abort TypeByExtension status body).Response.header "Content-Type" = plain
    rw [hhead]
    exact get_set_of_canonical_eq _ _ _ _ rfl
  · simp [ResponseWriter.statuses, hcalls, List.filterMap_append]
  · simp [ResponseWriter.body, ResponseWriter.writes, hcalls, List.filterMap_append]
  · intro g
    rw [Abort_calls, Abort_header, Abort_calls, Abort_header]
    exact ⟨rfl, rfl⟩

/-- Witness of C7 on a sink whose every write fails: `Abort(500, "oops")` still
sets the content type, then the status, then attempts the one write. -/
theorem Abort_sequence_witness :
    (brokenContext.Abort sampleTable 500 "oops").Response.calls
      = [Call.HeaderSet "Content-Type" "text/plain; charset=utf-8", Call.WriteHeader 500,
          Call.Write (bytesOf "oops")]
    ∧ (brokenContext.Abort sampleTable 500 "oops").Header.Get "Content-Type"
      = "text/plain; charset=utf-8"
    ∧ (brokenContext.Abort sampleTable 500 "oops").Response.statuses = [500] := by
  have h := Abort_sequence sampleTable brokenContext 500 "oops" "text/plain; charset=utf-8"
    (by decide) (by decide)
  exact ⟨h.2.1, h.2.2.1, h.2.2.2.1⟩

/-- C8: `Redirect(status, url)` first sets `Location` to `url`, then does what
`Abort(status, "Redirecting to: " + url)` does: the trace grows by the `Set` of
`Location`, the header call of `ContentType("txt")`, `WriteHeader(status)` with
the status of the caller whatever it is, and a `Write` of the bytes of
`Redirecting to: ` followed by `url`; afterwards `Location` reads `url`. -/
theorem Redirect_sequence (TypeByExtension : String → String) (ctx : Context) (status : Int)
    (url_ : String) :
    ctx.Redirect TypeByExtension status url_
      = (ctx.HeaderSet "Location" url_).Abort TypeByExtension status ("Redirecting to: " ++ url_)
    ∧ (ctx.Redirect TypeByExtension status url_).Response.calls
        = ctx.Response.calls ++ [Call.HeaderSet "Location" url_]
          ++ plainTextCalls TypeByExtension
          ++ [Call.WriteHeader status, Call.Write (bytesOf ("Redirecting to: " ++ url_))]
    ∧ (ctx.Redirect TypeByExtension status url_).Header.Get "Location" = url_
    ∧ (ctx.Redirect TypeByExtension status url_).Response.statuses
        = ctx.Response.statuses ++ [status]
    ∧ (ctx.Redirect TypeByExtension status url_).Response.body
        = ctx.Response.body ++ bytesOf ("Redirecting to: " ++ url_) := by
  have hcalls : (ctx.Redirect TypeByExtension status url_).Response.calls
      = ctx.Response.calls ++ [Call.HeaderSet "Location" url_]
        ++ plainTextCalls TypeByExtension
        ++ [Call.WriteHeader status, Call.Write (bytesOf ("Redirecting to: " ++ url_))] := by
    unfold Context.Redirect
    rw [Abort_calls]
    rfl
  have hplain : ResponseWriter.statuses ⟨ctx.Response.header, plainTextCalls TypeByExtension,
        ctx.Response.onWrite⟩ = []
      ∧ ResponseWriter.writes ⟨ctx.Response.header, plainTextCalls TypeByExtension,
        ctx.Response.onWrite⟩ = [] := by
    unfold plainTextCalls
    split_ifs <;> exact ⟨rfl, rfl⟩
  refine ⟨rfl, hcalls, ?_, ?_, ?_⟩
  · show Header.Get (ctx.Redirect TypeByExtension status url_).Response.header "Location" = url_
    unfold Context.Redirect
    rw [Abort_header]
    split_ifs
    · rw [get_set_of_canonical_ne _ _ _ _ (by decide)]
      exact get_set_of_canonical_eq _ _ _ _ rfl
    · exact get_set_of_canonical_eq _ _ _ _ rfl
  · have h1 := hplain.1
    simp only [ResponseWriter.statuses] at h1
    simp [ResponseWriter.statuses, hcalls, List.filterMap_append, h1]
  · have h2 := hplain.2
    simp only [ResponseWriter.writes] at h2
    simp [ResponseWriter.body, ResponseWriter.writes, hcalls, List.filterMap_append, h2]

/-- The example of C8: `Redirect(302, "http://example.com/x")`. -/
theorem Redirect_sequence_witness :
    (freshContext.Redirect sampleTable 302 "http://example.com/x").Response.calls
      = [Call.HeaderSet "Location" "http://example.com/x",
          Call.HeaderSet "Content-Type" "text/plain; charset=utf-8", Call.WriteHeader 302,
          Call.Write (bytesOf "Redirecting to: http://example.com/x")]
    ∧ (freshContext.Redirect sampleTable 302 "http://example.com/x").Header.Get "Location"
      = "http://example.com/x"
    ∧ (freshContext.Redirect sampleTable 200 "y").Response.statuses = [200] := by
  have h := Redirect_sequence sampleTable freshContext 302 "http://example.com/x"
  have h2 := Redirect_sequence sampleTable freshContext 200 "y"
  refine ⟨?_, h.2.2.1, h2.2.2.2.1⟩
  rw [h.2.1]
  decide

/-- C9: each fixed-status helper leaves exactly the context that `Abort` leaves
with its status and the message: `NotFound` 404, `NotAcceptable` 406,
`Unauthorized` 401, `Forbidden` 403; each returns nothing but the context, so
the error of the write goes nowhere. `NotModified` adds the single call
`WriteHeader(304)` to the trace: the headers are as before and no byte is
written. -/
theorem helpers_are_Abort (TypeByExtension : String → String) (ctx : Context)
    (message : String) :
    ctx.NotFound TypeByExtension message = ctx.Abort TypeByExtension 404 message
    ∧ ctx.NotAcceptable TypeByExtension message = ctx.Abort TypeByExtension 406 message
    ∧ ctx.Unauthorized TypeByExtension message = ctx.Abort TypeByExtension 401 message
    ∧ ctx.Forbidden TypeByExtension message = ctx.Abort TypeByExtension 403 message
    ∧ (ctx.NotFound TypeByExtension message).Response.calls
        = ctx.Response.calls ++ plainTextCalls TypeByExtension
          ++ [Call.WriteHeader 404, Call.Write (bytesOf message)]
    ∧ (ctx.NotAcceptable TypeByExtension message).Response.calls
        = ctx.Response.calls ++ plainTextCalls TypeByExtension
          ++ [Call.WriteHeader 406, Call.Write (bytesOf message)]
    ∧ (ctx.Unauthorized TypeByExtension message).Response.calls
        = ctx.Response.calls ++ plainTextCalls TypeByExtension
          ++ [Call.WriteHeader 401, Call.Write (bytesOf message)]
    ∧ (ctx.Forbidden TypeByExtension message).Response.calls
        = ctx.Response.calls ++ plainTextCalls TypeByExtension
          ++ [Call.WriteHeader 403, Call.Write (bytesOf message)]
    ∧ ctx.NotModified.Response.calls = ctx.Response.calls ++ [Call.WriteHeader 304]
    ∧ ctx.NotModified.Response.header = ctx.Response.header
    ∧ ctx.NotModified.Response.statuses = ctx.Response.statuses ++ [304]
    ∧ ctx.NotModified.Response.body = ctx.Response.body :=
  ⟨rfl, rfl, rfl, rfl, Abort_calls _ _ _ _, Abort_calls _ _ _ _, Abort_calls _ _ _ _,
    Abort_calls _ _ _ _, rfl, rfl,
    by simp [Context.NotModified, Context.WriteHeader, ResponseWriter.WriteHeader,
      ResponseWriter.statuses, List.filterMap_append],
    by simp [Context.NotModified, Context.WriteHeader, ResponseWriter.WriteHeader,
      ResponseWriter.body, ResponseWriter.writes, List.filterMap_append]⟩

/-- The example of C9 on a sink whose writes fail: `NotFound("missing")` sets the
content type to text, the status 404 and attempts the body `missing`;
`NotModified()` sets 304 and nothing else. -/
theorem helpers_are_Abort_witness :
    (brokenContext.NotFound sampleTable "missing").Response.calls
      = [Call.HeaderSet "Content-Type" "text/plain; charset=utf-8", Call.WriteHeader 404,
          Call.Write (bytesOf "missing")]
    ∧ brokenContext.NotModified.Response.calls = [Call.WriteHeader 304] := by
  have h := helpers_are_Abort sampleTable brokenContext "missing"
  refine ⟨?_, h.2.2.2.2.2.2.2.2.1⟩
  rw [h.2.2.2.2.1]
  decide

/-! ### The claim on stream sources -/

theorem flatten_nonEmptyChunks (script : List (Bytes × Option ExtError)) :
    (nonEmptyChunks script).flatten = (script.map Prod.fst).flatten := by
  induction script with
  | nil => rfl
  | cons e rest ih =>
    unfold nonEmptyChunks at ih ⊢
    by_cases h : 0 < e.1.length
    · simp [List.filter_cons, h, ih]
    · have h0 : e.1 = [] := by
        cases he : e.1 with
        | nil => rfl
        | cons a as => simp [he] at h
      simp [List.filter_cons, h0, ih]

theorem writes_map_Write (w : ResponseWriter) (l : List Bytes) :
    ResponseWriter.writes { w with calls := l.map Call.Write } = l := by
  induction l with
  | nil => rfl
  | cons b bs ih =>
    simp only [ResponseWriter.writes] at ih ⊢
    simp [List.filterMap_cons, ih]

/-- On a sink that accepts every write, the copy loop passes every non-empty
chunk of a well-behaved script to `Write`, in order, uses the script up and
reports no error. -/
theorem copyLoop_delivers (script : List (Bytes × Option ExtError)) :
    ∀ (dst : Context) (written : Int), dst.acceptsEveryWrite → deliversAll script = true →
      copyLoop dst written script
        = ((written + (((script.map Prod.fst).flatten.length : Nat) : Int), none),
            dst.withCalls ((nonEmptyChunks script).map Call.Write), ⟨[]⟩) := by
  induction script with
  | nil =>
    intro dst written _ _
    simp [copyLoop, Context.withCalls, nonEmptyChunks]
  | cons e rest ih =>
    intro dst written hsink hd
    obtain ⟨buf, er⟩ := e
    simp only [deliversAll, Bool.and_eq_true, Bool.or_eq_true, decide_eq_true_eq,
      List.isEmpty_iff] at hd
    obtain ⟨hhead, hrest⟩ := hd
    have hw : dst.Write buf = (((buf.length : Int), none), dst.withCalls [Call.Write buf]) := by
      simp [Context.Write, ResponseWriter.Write, Context.withCalls, hsink dst.Response.calls buf]
    have hsink2 : (dst.withCalls [Call.Write buf]).acceptsEveryWrite := by
      intro tr d
      exact hsink tr d
    by_cases hlen : 0 < buf.length
    · have hvalid : decide ((buf.length : Int) < 0 ∨ (buf.length : Int) < (buf.length : Int))
          = false := by
        simp
      rcases hhead with hnone | ⟨heof, hnil⟩
      · subst hnone
        simp only [copyLoop, hlen, if_true, hw, hvalid]
        simp only [Bool.false_eq_true, false_and, if_false, ne_eq, not_true_eq_false,
          reduceCtorEq]
        rw [ih _ _ hsink2 hrest]
        simp [Context.withCalls, nonEmptyChunks, List.filter_cons, hlen, Int.add_assoc]
      · subst heof
        subst hnil
        simp only [copyLoop, hlen, if_true, hw, hvalid]
        simp [Context.withCalls, nonEmptyChunks, List.filter_cons, hlen]
    · have h0 : buf = [] := by
        cases buf with
        | nil => rfl
        | cons a as => simp at hlen
      subst h0
      rcases hhead with hnone | ⟨heof, hnil⟩
      · subst hnone
        simp only [copyLoop, List.length_nil, lt_self_iff_false, if_false]
        rw [ih _ _ hsink hrest]
        simp [Context.withCalls, nonEmptyChunks, List.filter_cons]
      · subst heof
        subst hnil
        simp [copyLoop, Context.withCalls, nonEmptyChunks, List.filter_cons]

/-- C10: for a value that passes only the `Read` test, whose reader delivers its
content and then runs dry, on a sink that accepts every write: `writeAnything`
returns no error; it adds to the trace exactly one `Write` per non-empty chunk
read, in the order read, and nothing else, so that the body grows by exactly
the content of the reader; the reader is left used up; and a second
`writeAnything` of the value as it now is returns no error and leaves the
context as it was, writing nothing more. -/
theorem writeAnything_copies_reader (encoders : Registry) (ctx : Context) (i : Value)
    (r : Reader) (hs : i.str = none) (hb : i.bytes = none) (hw : i.WriteTo = none)
    (hr : i.Read = some r) (hsink : ctx.acceptsEveryWrite)
    (hread : deliversAll r.script = true) :
    (ctx.writeAnything encoders i).1 = none
    ∧ (ctx.writeAnything encoders i).2.1
        = ctx.withCalls ((nonEmptyChunks r.script).map Call.Write)
    ∧ (ctx.writeAnything encoders i).2.1.Response.body = ctx.Response.body ++ r.content
    ∧ (ctx.writeAnything encoders i).2.2 = { i with Read := some ⟨[]⟩ }
    ∧ (ctx.writeAnything encoders i).2.1.writeAnything encoders
          (ctx.writeAnything encoders i).2.2
        = (none, (ctx.writeAnything encoders i).2.1, (ctx.writeAnything encoders i).2.2) := by
  have hrun : ctx.writeAnything encoders i
      = (none, ctx.withCalls ((nonEmptyChunks r.script).map Call.Write),
          { i with Read := some ⟨[]⟩ }) := by
    simp only [Context.writeAnything, hs, hb, hw, hr, ioCopy,
      copyLoop_delivers r.script ctx 0 hsink hread]
    rfl
  rw [hrun]
  refine ⟨rfl, rfl, ?_, rfl, ?_⟩
  · have h1 := writes_append ctx.Response ((nonEmptyChunks r.script).map Call.Write)
    rw [writes_map_Write] at h1
    show ResponseWriter.body (ctx.withCalls _).Response = _
    unfold ResponseWriter.body Context.withCalls
    rw [h1, List.flatten_append, flatten_nonEmptyChunks]
    rfl
  · simp [Context.writeAnything, hs, hb, hw, ioCopy, copyLoop]

/-- Witness of C10: a reader delivering the bytes 1 to 5 in three reads (one of
them empty, the last with `io.EOF`) is written as the two chunks read, the body
is the five bytes, and a second dispatch adds nothing. -/
theorem writeAnything_copies_reader_witness :
    (freshContext.writeAnything noEncoders streamValue).1 = none
    ∧ (freshContext.writeAnything noEncoders streamValue).2.1.Response.calls
        = [Call.Write [1, 2], Call.Write [3, 4, 5]]
    ∧ (freshContext.writeAnything noEncoders streamValue).2.1.Response.body = [1, 2, 3, 4, 5]
    ∧ ((freshContext.writeAnything noEncoders streamValue).2.1.writeAnything noEncoders
          (freshContext.writeAnything noEncoders streamValue).2.2).2.1.Response.calls
        = [Call.Write [1, 2], Call.Write [3, 4, 5]] := by
  have h := writeAnything_copies_reader noEncoders freshContext streamValue
    ⟨[([1, 2], none), ([], none), ([3, 4, 5], some ExtError.EOF)]⟩ rfl rfl rfl rfl
    (fun _ _ => rfl) (by decide)
  refine ⟨h.1, ?_, ?_, ?_⟩
  · rw [h.2.1]; decide
  · rw [h.2.2.1]; decide
  · rw [h.2.2.2.2, h.2.1]; decide

end Web
